import Mathlib

/-!
Verification of the download-and-verify core of `interactive-model-downloader`.

Shallow embedding of:
- `src/civitai/meta.rs` (`blake3_hash`, `save_version_file_hash`),
- `src/cache_db.rs` (`store_civitai_model_file_location`,
  `retreive_civitai_model_locations_by_blake3`),
- `src/civitai/download_task.rs` (`download_single_model_file`),
- `src/civitai/mod.rs` (the per-file cache-lookup / skip decision of
  `download_from_civitai`),
- `src/downloader.rs` (`make_backoff_policy`'s maximum-elapsed-time computation).
-/

namespace IMD

/-! ## Filesystem paths

Paths are modelled as a list of components plus an absolute flag.  The string
form (`PathBuf::to_string_lossy`) is modelled as the path itself: serialisation
to the cache database round-trips, so location lists store `RPath` values
directly.
-/

structure RPath where
  absolute : Bool
  components : List String
  deriving Repr, DecidableEq

def RPath.join (p : RPath) (name : String) : RPath :=
  ⟨p.absolute, p.components ++ [name]⟩

/-- `Path::parent`: `None` for an empty path, otherwise the path without its
last component. -/
def RPath.parent (p : RPath) : Option RPath :=
  match p.components with
  | [] => none
  | _ => some ⟨p.absolute, p.components.dropLast⟩

/-- `Path::file_name`: the last component. -/
def RPath.fileName (p : RPath) : Option String :=
  p.components.getLast?

/-- One step of path normalisation: `.` is dropped, `..` removes the previous
component, anything else is kept. -/
def normalizeStep (acc : List String) (comp : String) : List String :=
  if comp = "." then acc
  else if comp = ".." then acc.dropLast
  else acc ++ [comp]

/-- Model of `std::fs::canonicalize`: a relative path is resolved against the
current working directory (always absolute), and `.`/`..` components are
eliminated.  The result is always an absolute path. -/
def canonicalizeP (cwd : List String) (p : RPath) : RPath :=
  if p.absolute then ⟨true, p.components.foldl normalizeStep []⟩
  else ⟨true, (cwd ++ p.components).foldl normalizeStep []⟩

/-- Characters before the last `.` of the list, or `none` when no `.`
occurs. -/
def fileStemAux : List Char → Option (List Char)
  | [] => none
  | c :: rest =>
    match fileStemAux rest with
    | some stem => some (c :: stem)
    | none => if c = '.' then some [] else none

/-- Model of `Path::file_stem` on a file name: the part before the final `.`;
a name without a `.`, or whose only `.` leads (e.g. `.bashrc`), is its own
stem. -/
def fileStem (name : String) : String :=
  match fileStemAux name.data with
  | some [] => name
  | some stem => String.mk stem
  | none => name

/-- Byte content of a text file; the hash strings written by
`save_version_file_hash` are ASCII, modelled byte-per-character. -/
def strBytes (s : String) : List UInt8 :=
  s.data.map (fun c => UInt8.ofNat c.toNat)

/-- The filesystem: a map from paths to file contents (byte lists). -/
abbrev FS := RPath → Option (List UInt8)

def FS.write (fs : FS) (p : RPath) (d : List UInt8) : FS :=
  fun q => if q = p then some d else fs q

/-! ## Hex rendering and the streaming hasher (`meta.rs::blake3_hash`)

The blake3 crate itself is a dependency, not code of this repository.
Modelled from the spec: §4.1 specifies a streaming hasher whose repeated
`update` calls accumulate the byte stream and whose result is byte-identical
to hashing the accumulated bytes at once; the digest function itself is an
arbitrary parameter `digest`.  `Hash::to_hex` renders the digest in lower-case
hexadecimal, which `blake3_hash` then upper-cases.
-/

/-- Model of `str::to_uppercase` (the hash strings involved are ASCII). -/
def toUpperStr (s : String) : String :=
  String.mk (s.data.map Char.toUpper)

def hexDigitLC (n : Nat) : Char :=
  match n with
  | 0 => '0' | 1 => '1' | 2 => '2' | 3 => '3' | 4 => '4'
  | 5 => '5' | 6 => '6' | 7 => '7' | 8 => '8' | 9 => '9'
  | 10 => 'a' | 11 => 'b' | 12 => 'c' | 13 => 'd' | 14 => 'e' | 15 => 'f'
  | _ => '0'

def byteToHexLC (b : UInt8) : List Char :=
  [hexDigitLC (b.toNat / 16), hexDigitLC (b.toNat % 16)]

def toHexLC (ds : List UInt8) : String :=
  String.mk (ds.map byteToHexLC).flatten

/-- The fixed read-buffer size of `blake3_hash`: 512 KiB. -/
def CHUNK_SIZE : Nat := 512 * 1024

/-- The read loop of `blake3_hash` splits the file into successive chunks of at
most `n` bytes. -/
def chunksOf (n : Nat) (bs : List UInt8) : List (List UInt8) :=
  if bs = [] ∨ n = 0 then []
  else bs.take n :: chunksOf n (bs.drop n)
termination_by bs.length
decreasing_by
  rename_i h
  push_neg at h
  have h1 : bs ≠ [] := h.1
  have h2 : n ≠ 0 := h.2
  have : 0 < bs.length := List.length_pos.mpr h1
  have : bs.length - n < bs.length := Nat.sub_lt this (Nat.pos_of_ne_zero h2)
  simpa [List.length_drop] using this

/-- Fresh hasher state (`blake3::Hasher::new`): no bytes fed yet. -/
def hasherNew : List UInt8 := []

/-- Streaming `update`: feed more bytes. -/
def hasherUpdate (st chunk : List UInt8) : List UInt8 := st ++ chunk

/-- `finalize`: digest over everything fed so far. -/
def hasherFinalize (digest : List UInt8 → List UInt8) (st : List UInt8) : List UInt8 :=
  digest st

/-- The pure computation of `blake3_hash` over in-memory bytes: chunked
streaming update, finalize, lower-hex rendering, upper-casing. -/
def blake3HashBytes (digest : List UInt8 → List UInt8) (bs : List UInt8) : String :=
  toUpperStr
    (toHexLC (hasherFinalize digest ((chunksOf CHUNK_SIZE bs).foldl hasherUpdate hasherNew)))

/-- `meta.rs::blake3_hash`: fails when the file does not exist, otherwise reads
it in 512 KiB chunks through the streaming hasher. -/
def blake3_hash (digest : List UInt8 → List UInt8) (fs : FS) (targetFile : RPath) :
    Except String String :=
  match fs targetFile with
  | none => .error "Request file not exists"
  | some bs => .ok (blake3HashBytes digest bs)

/-- `meta.rs::save_version_file_hash`: writes `<stem>.blake3` next to the
source file (or under the current directory when the source path has no
parent), containing the upper-cased hash. -/
def save_version_file_hash (cwd : List String) (sourceFilePath : RPath) (hash : String)
    (fs : FS) : Except String FS :=
  match sourceFilePath.fileName with
  | none => .error "Source file has no file name"
  | some name =>
    let hashFileName := fileStem name ++ ".blake3"
    let dir := match sourceFilePath.parent with
      | some d => d
      | none => ⟨true, cwd⟩
    .ok (fs.write (dir.join hashFileName) (strBytes (toUpperStr hash)))

/-! ## Catalog data model (`src/civitai/model.rs`)

Only the fields the download core reads are embedded; descriptive metadata
(sizes, prompts, tags, …) plays no role in the claims.  `ModelVersion` carries
`modelId`; `model.rs` in this snapshot omits the field, but `cache_db.rs`
reads it through the `model_id()` accessor, so it is part of the record
(spec §3: `associated_ids: {model_id, version_id, file_id}`).
-/

structure ModelVersionFileHashes where
  sha256 : Option String
  blake3 : Option String
  deriving Repr, DecidableEq

structure ModelVersionFile where
  id : Nat
  name : String
  primary : Option Bool
  hashes : ModelVersionFileHashes
  downloadUrl : String
  deriving Repr, DecidableEq

structure ModelVersion where
  id : Nat
  modelId : Nat
  name : String
  files : List ModelVersionFile
  deriving Repr, DecidableEq

/-- Modelled from the spec: `ModelVersionFile::match_by_blake3` is called from
`download_task.rs` but its definition is not part of this snapshot's
`model.rs`; §3 specifies that content hashes compare case-insensitively
(declared catalog hash against the computed one), and §4.5 compares only when
the catalog declared a hash. -/
def match_by_blake3 (f : ModelVersionFile) (checksum : String) : Bool :=
  match f.hashes.blake3 with
  | some declared => toUpperStr declared = toUpperStr checksum
  | none => false

/-- `ModelVersionFile::blake3_hash` accessor (field projection). -/
def ModelVersionFile.blake3_hashA (f : ModelVersionFile) : Option String :=
  f.hashes.blake3

/-! ## Location cache (`src/cache_db.rs`)

The sled database is modelled as a map from string keys to
`CivitaiFileLocationRecord` values; serde round-trips are the identity, and
locations are stored as paths (the code stores their string form).
-/

structure CivitaiFileLocationRecord where
  modelId : Nat
  versionId : Nat
  locations : List RPath
  deriving Repr, DecidableEq

abbrev CacheDb := String → Option CivitaiFileLocationRecord

def CacheDb.insert (db : CacheDb) (k : String) (r : CivitaiFileLocationRecord) : CacheDb :=
  fun q => if q = k then some r else db q

def fileIdKeyOf (modelId versionId fileId : Nat) : String :=
  "civitai:model:file:" ++ toString modelId ++ ":" ++ toString versionId
    ++ ":id:" ++ toString fileId

def sha256KeyOf (hash : String) : String :=
  "civitai:model:file:sha256:" ++ hash

def blake3KeyOf (hash : String) : String :=
  "civitai:model:file:blake3:" ++ hash

/-- The per-key update step of `store_civitai_model_file_location`: append the
new location to an existing record, or insert the fresh single-location
record. -/
def pushLocation (location : RPath) (newRecord : CivitaiFileLocationRecord) (k : String)
    (db : CacheDb) : CacheDb :=
  match db k with
  | some r => db.insert k { r with locations := r.locations ++ [location] }
  | none => db.insert k newRecord

/-- `cache_db.rs::store_civitai_model_file_location`: canonicalize the path,
then update the id-indexed record and, when the catalog metadata declares
them, the sha256- and blake3-indexed records.  Note the hash keys come from
the file's declared catalog hashes (`model_version_file.sha256_hash()` /
`.blake3_hash()`); the function has no parameter for a computed hash. -/
def store_civitai_model_file_location (cwd : List String) (modelVersion : ModelVersion)
    (modelVersionFile : ModelVersionFile) (fileLocation : RPath) (db : CacheDb) : CacheDb :=
  let location := canonicalizeP cwd fileLocation
  let fileIdKey := fileIdKeyOf modelVersion.modelId modelVersion.id modelVersionFile.id
  let newRecord : CivitaiFileLocationRecord :=
    ⟨modelVersion.modelId, modelVersion.id, [location]⟩
  let db1 := pushLocation location newRecord fileIdKey db
  let db2 := match modelVersionFile.hashes.sha256 with
    | some h => pushLocation location newRecord (sha256KeyOf h) db1
    | none => db1
  match modelVersionFile.hashes.blake3 with
  | some h => pushLocation location newRecord (blake3KeyOf h) db2
  | none => db2

/-- `cache_db.rs::retreive_civitai_model_locations_by_blake3`. -/
def retreive_civitai_model_locations_by_blake3 (hash : String) (db : CacheDb) :
    Option (List RPath) :=
  (db (blake3KeyOf hash)).map (fun r => r.locations)

/-! ## The download task (`src/civitai/download_task.rs::download_single_model_file`)

The HTTP layer is modelled as an attempt-indexed oracle `net`; the code issues
exactly one `client.execute`, consuming `net 0`.  The received body is a list
of chunk results; the streaming loop writes each chunk and reports the clamped
running total to the progress bar.
-/

inductive NetErr where
  | timeout
  | connReset
  | status5xx (code : Nat)
  | other (msg : String)
  deriving Repr, DecidableEq

structure HttpResponse where
  contentLength : Option Nat
  chunks : List (Except NetErr (List UInt8))
  deriving Repr

inductive DlError where
  | fileNotFound
  | net (e : NetErr)
  | incorrectLength
  | io (msg : String)
  deriving Repr, DecidableEq

structure DownloadEnv where
  net : Nat → Except NetErr HttpResponse
  cwd : List String
  fs : FS
  db : CacheDb

structure DownloadOutcome where
  result : Except DlError String
  fs : FS
  db : CacheDb
  attempts : Nat
  progress : List Nat
  logs : List String

/-- The chunk loop (`download_task.rs` lines 62-67): returns the bytes written
so far, the successive progress-bar positions `min(pos + len, L)`, and the
first chunk error if any.  On an error the bytes already received remain
written (a partially transferred file may stay on disk). -/
def runChunks (L : Nat) : List (Except NetErr (List UInt8)) → Nat →
    List UInt8 × List Nat × Option NetErr
  | [], _ => ([], [], none)
  | .error e :: _, _ => ([], [], some e)
  | .ok c :: rest, pos =>
    let pos2 := min (pos + c.length) L
    let r := runChunks L rest pos2
    (c ++ r.1, pos2 :: r.2.1, r.2.2)

def checkPassedMsg : String := "File blake3 check passed."

def checkFailedMsg : String := "File blake3 check failed. Maybe need to redownload."

/-- `download_task.rs::download_single_model_file`: resolve the file by id,
issue a single request, require a declared content length, stream the body to
the destination, re-read and hash the written file, warn (only) on a hash
mismatch, write the `.blake3` sidecar, and record the location in the cache
database. -/
def download_single_model_file (digest : List UInt8 → List UInt8)
    (modelVersionMeta : ModelVersion) (fileId : Nat) (destinationPath : Option RPath)
    (env : DownloadEnv) : DownloadOutcome :=
  match modelVersionMeta.files.find? (fun f => f.id = fileId) with
  | none => ⟨.error .fileNotFound, env.fs, env.db, 0, [], []⟩
  | some selectedFile =>
    let targetFilePath := (destinationPath.getD ⟨true, env.cwd⟩).join selectedFile.name
    match env.net 0 with
    | .error e => ⟨.error (.net e), env.fs, env.db, 1, [], []⟩
    | .ok response =>
      match response.contentLength with
      | none => ⟨.error .incorrectLength, env.fs, env.db, 1, [], []⟩
      | some fileLength =>
        let r := runChunks fileLength response.chunks 0
        let fs1 := env.fs.write targetFilePath r.1
        match r.2.2 with
        | some e => ⟨.error (.net e), fs1, env.db, 1, r.2.1, []⟩
        | none =>
          match blake3_hash digest fs1 targetFilePath with
          | .error msg => ⟨.error (.io msg), fs1, env.db, 1, r.2.1, []⟩
          | .ok blake3Checksum =>
            let checkLog := if match_by_blake3 selectedFile blake3Checksum
              then checkPassedMsg else checkFailedMsg
            match save_version_file_hash env.cwd targetFilePath blake3Checksum fs1 with
            | .error msg => ⟨.error (.io msg), fs1, env.db, 1, r.2.1, [checkLog]⟩
            | .ok fs2 =>
              let db2 := store_civitai_model_file_location env.cwd modelVersionMeta
                selectedFile targetFilePath env.db
              ⟨.ok selectedFile.name, fs2, db2, 1, r.2.1, [checkLog]⟩

/-! ## The per-file orchestration step (`src/civitai/mod.rs` lines 81-112)

`version_file_hash` looks up the declared blake3 hash of the selected file;
when it exists and the cache holds a record with a location still present on
disk, the interactive collaborator (`selections.rs::decide_proceeding_or_not`,
modelled as the oracle `dec`) is asked; declining skips the file.  The on-disk
liveness check `PathBuf::exists` is the oracle `diskHas`.
-/

def version_file_hash (files : List ModelVersionFile) (fileId : Nat) : Option String :=
  (files.find? (fun f => f.id = fileId)).bind (fun f => f.hashes.blake3)

/-- The cache probe of the loop body: the existing on-disk location that
triggers the interactive prompt, if any. -/
def cache_skip_probe (files : List ModelVersionFile) (fileId : Nat) (db : CacheDb)
    (diskHas : RPath → Bool) : Option RPath :=
  match version_file_hash files fileId with
  | some hash =>
    match retreive_civitai_model_locations_by_blake3 hash db with
    | some locations => locations.find? diskHas
    | none => none
  | none => none

structure FileStepOutcome where
  invokedCollaborator : Bool
  skipped : Bool
  outcome : Option DownloadOutcome

/-- One iteration of the file loop of `download_from_civitai`: probe the
cache; when an existing location is found, ask the collaborator and either
skip (`continue`, no download) or fall through to the download. -/
def process_version_file (digest : List UInt8 → List UInt8) (mv : ModelVersion)
    (fileId : Nat) (dest : Option RPath) (diskHas : RPath → Bool) (dec : RPath → Bool)
    (env : DownloadEnv) : FileStepOutcome :=
  match cache_skip_probe mv.files fileId env.db diskHas with
  | some filePath =>
    if dec filePath then
      ⟨true, false, some (download_single_model_file digest mv fileId dest env)⟩
    else ⟨true, true, none⟩
  | none => ⟨false, false, some (download_single_model_file digest mv fileId dest env)⟩

/-! ## Retry policy arithmetic (`src/downloader.rs::make_backoff_policy`)

The `f32` computation is modelled over `ℚ`:
`wait_times = initial_interval * (1 - multiplier^(max_retry-1)) / (1 - multiplier)`,
`max_timeouts = max_timeout_secs * max_retry`,
`max_elapsed_time = ceil(wait_times + max_timeouts)` (seconds, as `u64`).
`initial_interval`, `max_retry` and `max_timeout_secs` are integers in the
code; `multiplier` is fractional.  The backoff configuration fields are passed
as arguments here (the `Configuration` struct of this snapshot lacks the
`backoff` section the code reads). -/

def sum_of_backoff_waits (initialInterval : ℕ) (multiplier : ℚ) (maxRetry : ℕ) : ℚ :=
  (initialInterval : ℚ) * (1 - multiplier ^ (maxRetry - 1)) / (1 - multiplier)

def max_elapsed_time (initialInterval : ℕ) (multiplier : ℚ) (maxRetry : ℕ)
    (maxTimeoutSecs : ℕ) : ℕ :=
  (Int.ceil (sum_of_backoff_waits initialInterval multiplier maxRetry
    + (maxTimeoutSecs : ℚ) * (maxRetry : ℚ))).toNat

/-! ## Helper lemmas: cache database -/

theorem CacheDb.insert_self (db : CacheDb) (k : String) (r : CivitaiFileLocationRecord) :
    CacheDb.insert db k r k = some r := by
  simp [CacheDb.insert]

theorem CacheDb.insert_ne (db : CacheDb) (k : String) (r : CivitaiFileLocationRecord)
    (q : String) (h : q ≠ k) : CacheDb.insert db k r q = db q := by
  simp [CacheDb.insert, h]

theorem pushLocation_ne (loc : RPath) (nr : CivitaiFileLocationRecord) (k : String)
    (db : CacheDb) (q : String) (h : q ≠ k) : pushLocation loc nr k db q = db q := by
  unfold pushLocation
  cases hdb : db k <;> simp only [hdb] <;> exact CacheDb.insert_ne _ _ _ _ h

theorem pushLocation_self_none (loc : RPath) (nr : CivitaiFileLocationRecord) (k : String)
    (db : CacheDb) (h : db k = none) : pushLocation loc nr k db k = some nr := by
  unfold pushLocation
  rw [h]
  exact CacheDb.insert_self _ _ _

theorem pushLocation_self_some (loc : RPath) (nr r : CivitaiFileLocationRecord) (k : String)
    (db : CacheDb) (h : db k = some r) :
    pushLocation loc nr k db k = some { r with locations := r.locations ++ [loc] } := by
  unfold pushLocation
  rw [h]
  exact CacheDb.insert_self _ _ _

theorem pushLocation_mem_self (loc : RPath) (nr : CivitaiFileLocationRecord) (k : String)
    (db : CacheDb) (hnr : loc ∈ nr.locations) :
    ∃ r, pushLocation loc nr k db k = some r ∧ loc ∈ r.locations := by
  cases h : db k with
  | none => exact ⟨nr, pushLocation_self_none _ _ _ _ h, hnr⟩
  | some r =>
    refine ⟨_, pushLocation_self_some _ _ _ _ _ h, ?_⟩
    simp

/-- The spec invariant on the location cache: every stored location is an
absolute path. -/
def absInv (db : CacheDb) : Prop :=
  ∀ k r, db k = some r → ∀ q ∈ r.locations, q.absolute = true

theorem canonicalizeP_absolute (cwd : List String) (p : RPath) :
    (canonicalizeP cwd p).absolute = true := by
  unfold canonicalizeP
  split <;> rfl

theorem absInv_pushLocation {loc : RPath} {nr : CivitaiFileLocationRecord} {k : String}
    {db : CacheDb} (hl : loc.absolute = true)
    (hnr : ∀ q ∈ nr.locations, q.absolute = true) (h : absInv db) :
    absInv (pushLocation loc nr k db) := by
  intro k2 r2 hk2 q hq
  by_cases hkk : k2 = k
  · subst hkk
    cases hdb : db k2 with
    | none =>
      rw [pushLocation_self_none _ _ _ _ hdb] at hk2
      cases hk2
      exact hnr q hq
    | some r =>
      rw [pushLocation_self_some _ _ _ _ _ hdb] at hk2
      cases hk2
      rcases List.mem_append.mp hq with h1 | h2
      · exact h k2 r hdb q h1
      · rw [List.mem_singleton.mp h2]
        exact hl
  · rw [pushLocation_ne _ _ _ _ _ hkk] at hk2
    exact h k2 r2 hk2 q hq

theorem store_absInv (cwd : List String) (mv : ModelVersion) (f : ModelVersionFile)
    (p : RPath) (db : CacheDb) (h : absInv db) :
    absInv (store_civitai_model_file_location cwd mv f p db) := by
  have hl := canonicalizeP_absolute cwd p
  have hnr : ∀ q ∈ [canonicalizeP cwd p], q.absolute = true := by
    intro q hq
    rw [List.mem_singleton.mp hq]
    exact hl
  unfold store_civitai_model_file_location
  cases f.hashes.sha256 <;> cases f.hashes.blake3 <;>
    · dsimp only
      repeat apply absInv_pushLocation hl hnr
      exact h

/-- After a store, the blake3-keyed record (when the catalog declares a blake3
hash) exists and contains the canonicalized location. -/
theorem store_blake3_mem (cwd : List String) (mv : ModelVersion) (f : ModelVersionFile)
    (p : RPath) (db : CacheDb) (h : String) (hb : f.hashes.blake3 = some h) :
    ∃ r, store_civitai_model_file_location cwd mv f p db (blake3KeyOf h) = some r ∧
      canonicalizeP cwd p ∈ r.locations := by
  unfold store_civitai_model_file_location
  rw [hb]
  dsimp only
  exact pushLocation_mem_self _ _ _ _ (List.mem_singleton.mpr rfl)

/-! ## Helper lemmas: chunked hashing and hex rendering -/

theorem chunksOf_flatten (n : Nat) (bs : List UInt8) (hn : n ≠ 0) :
    (chunksOf n bs).flatten = bs := by
  by_cases h : bs = []
  · subst h
    rw [chunksOf]
    simp
  · rw [chunksOf]
    have hcond : ¬ (bs = [] ∨ n = 0) := by simp [h, hn]
    rw [if_neg hcond, List.flatten_cons, chunksOf_flatten n (bs.drop n) hn]
    exact List.take_append_drop n bs
termination_by bs.length
decreasing_by
  have hpos : 0 < bs.length := List.length_pos.mpr h
  have : bs.length - n < bs.length := Nat.sub_lt hpos (Nat.pos_of_ne_zero hn)
  simpa [List.length_drop] using this

theorem foldl_hasherUpdate (l : List (List UInt8)) (acc : List UInt8) :
    l.foldl hasherUpdate acc = acc ++ l.flatten := by
  induction l generalizing acc with
  | nil => simp
  | cons c rest ih => simp [hasherUpdate, ih]

/-- The chunked streaming computation feeds exactly the whole byte sequence:
it therefore coincides with a single `update` over the whole buffer. -/
theorem blake3HashBytes_eq_single (digest : List UInt8 → List UInt8) (bs : List UInt8) :
    blake3HashBytes digest bs
      = toUpperStr (toHexLC (hasherFinalize digest (hasherUpdate hasherNew bs))) := by
  unfold blake3HashBytes
  rw [foldl_hasherUpdate, chunksOf_flatten _ _ (by norm_num [CHUNK_SIZE])]
  rfl

def UPPER_HEX_CHARS : List Char :=
  ['0', '1', '2', '3', '4', '5', '6', '7', '8', '9', 'A', 'B', 'C', 'D', 'E', 'F']

theorem toUpper_hexDigitLC_mem (n : Nat) : Char.toUpper (hexDigitLC n) ∈ UPPER_HEX_CHARS := by
  match n with
  | 0 | 1 | 2 | 3 | 4 | 5 | 6 | 7 | 8 | 9 | 10 | 11 | 12 | 13 | 14 | 15 => decide
  | k + 16 =>
    have h16 : hexDigitLC (k + 16) = '0' := rfl
    rw [h16]
    decide

theorem blake3HashBytes_upper_hex (digest : List UInt8 → List UInt8) (bs : List UInt8) :
    ∀ c ∈ (blake3HashBytes digest bs).data, c ∈ UPPER_HEX_CHARS := by
  intro c hc
  unfold blake3HashBytes toUpperStr toHexLC at hc
  simp only [String.data] at hc
  rcases List.mem_map.mp hc with ⟨c0, hc0, rfl⟩
  rcases List.mem_flatten.mp hc0 with ⟨pair, hpair, hc1⟩
  rcases List.mem_map.mp hpair with ⟨b, _, rfl⟩
  simp only [byteToHexLC, List.mem_cons, List.mem_singleton, List.not_mem_nil,
    or_false] at hc1
  rcases hc1 with rfl | rfl <;> exact toUpper_hexDigitLC_mem _

theorem upper_hex_toUpper_fixed : ∀ c ∈ UPPER_HEX_CHARS, Char.toUpper c = c := by
  decide

theorem toUpperStr_fixed {s : String} (h : ∀ c ∈ s.data, c ∈ UPPER_HEX_CHARS) :
    toUpperStr s = s := by
  cases s with
  | mk data =>
    unfold toUpperStr
    congr 1
    induction data with
    | nil => rfl
    | cons c rest ih =>
      simp only [List.map_cons]
      rw [upper_hex_toUpper_fixed c (h c (List.mem_cons_self _ _)),
        ih (fun x hx => h x (List.mem_cons_of_mem _ hx))]

theorem toUpperStr_blake3HashBytes (digest : List UInt8 → List UInt8) (bs : List UInt8) :
    toUpperStr (blake3HashBytes digest bs) = blake3HashBytes digest bs :=
  toUpperStr_fixed (blake3HashBytes_upper_hex digest bs)

/-! ## Helper lemmas: the streaming loop -/

theorem runChunks_progress (L : Nat) :
    ∀ (chunks : List (Except NetErr (List UInt8))) (pos : Nat), pos ≤ L →
      List.Chain' (fun a b => a ≤ b) (pos :: (runChunks L chunks pos).2.1) ∧
      ∀ x ∈ (runChunks L chunks pos).2.1, x ≤ L := by
  intro chunks
  induction chunks with
  | nil =>
    intro pos _
    simp [runChunks]
  | cons c rest ih =>
    intro pos hp
    cases c with
    | error e => simp [runChunks]
    | ok bytes =>
      have h2 : min (pos + bytes.length) L ≤ L := Nat.min_le_right _ _
      obtain ⟨hchain, hbound⟩ := ih (min (pos + bytes.length) L) h2
      constructor
      · show List.Chain' _ (pos :: min (pos + bytes.length) L :: _)
        exact List.chain'_cons.mpr ⟨le_min (Nat.le_add_right _ _) hp, hchain⟩
      · intro x hx
        rcases List.mem_cons.mp hx with rfl | h3
        · exact h2
        · exact hbound x h3

/-! ## Helper lemmas: paths, filesystem, sidecar -/

theorem FS.write_self (fs : FS) (p : RPath) (d : List UInt8) : FS.write fs p d p = some d := by
  simp [FS.write]

theorem RPath.fileName_join (p : RPath) (name : String) :
    (p.join name).fileName = some name := by
  simp [RPath.fileName, RPath.join]

theorem RPath.parent_join (p : RPath) (name : String) : (p.join name).parent = some p := by
  cases p with
  | mk abs comps =>
    unfold RPath.parent RPath.join
    cases comps with
    | nil => simp
    | cons a l =>
      show some (RPath.mk abs ((a :: l) ++ [name]).dropLast) = some (RPath.mk abs (a :: l))
      rw [List.dropLast_concat]

theorem save_version_file_hash_join (cwd : List String) (dir : RPath) (name hash : String)
    (fs : FS) :
    save_version_file_hash cwd (dir.join name) hash fs
      = .ok (fs.write (dir.join (fileStem name ++ ".blake3")) (strBytes (toUpperStr hash))) := by
  unfold save_version_file_hash
  rw [RPath.fileName_join, RPath.parent_join]

/-! ## Helper lemmas: the download task -/

theorem download_attempts_le_one (digest : List UInt8 → List UInt8) (mv : ModelVersion)
    (fileId : Nat) (dest : Option RPath) (env : DownloadEnv) :
    (download_single_model_file digest mv fileId dest env).attempts ≤ 1 := by
  unfold download_single_model_file
  cases hf : mv.files.find? (fun f => f.id = fileId) with
  | none => simp [hf]
  | some f =>
    simp only [hf]
    cases hn : env.net 0 with
    | error e => simp [hn]
    | ok resp =>
      simp only [hn]
      cases hL : resp.contentLength with
      | none => simp [hL]
      | some L =>
        simp only [hL]
        cases he : (runChunks L resp.chunks 0).2.2 with
        | some e => simp [he]
        | none =>
          simp only [he]
          cases hb : blake3_hash digest
              (env.fs.write ((dest.getD ⟨true, env.cwd⟩).join f.name)
                (runChunks L resp.chunks 0).1)
              ((dest.getD ⟨true, env.cwd⟩).join f.name) with
          | error m => simp [hb]
          | ok checksum =>
            simp only [hb]
            cases hs : save_version_file_hash env.cwd ((dest.getD ⟨true, env.cwd⟩).join f.name)
                checksum
                (env.fs.write ((dest.getD ⟨true, env.cwd⟩).join f.name)
                  (runChunks L resp.chunks 0).1) with
            | error m => simp [hs]
            | ok fs2 => simp [hs]

/-- C8: for every download attempt that fails before the transfer fully
completes and is verified, the location cache is left unchanged — every
failure path of `download_single_model_file` (missing file id, request
failure, missing content length, chunk error, hash-read error, sidecar-write
error) returns before `store_civitai_model_file_location` is reached, so a
partially transferred file is never represented in the cache. -/
theorem C8_failed_download_leaves_cache_unchanged (digest : List UInt8 → List UInt8)
    (mv : ModelVersion)
    (fileId : Nat) (dest : Option RPath) (env : DownloadEnv) (e : DlError)
    (h : (download_single_model_file digest mv fileId dest env).result = Except.error e) :
    (download_single_model_file digest mv fileId dest env).db = env.db := by
  revert h
  unfold download_single_model_file
  cases hf : mv.files.find? (fun f => f.id = fileId) with
  | none => intro h; simp [hf]
  | some f =>
    simp only [hf]
    cases hn : env.net 0 with
    | error e2 => intro h; simp [hn]
    | ok resp =>
      simp only [hn]
      cases hL : resp.contentLength with
      | none => intro h; simp [hL]
      | some L =>
        simp only [hL]
        cases he : (runChunks L resp.chunks 0).2.2 with
        | some e2 => intro h; simp [he]
        | none =>
          simp only [he]
          cases hb : blake3_hash digest
              (env.fs.write ((dest.getD ⟨true, env.cwd⟩).join f.name)
                (runChunks L resp.chunks 0).1)
              ((dest.getD ⟨true, env.cwd⟩).join f.name) with
          | error m => intro h; simp [hb]
          | ok checksum =>
            simp only [hb]
            cases hs : save_version_file_hash env.cwd
                ((dest.getD ⟨true, env.cwd⟩).join f.name) checksum
                (env.fs.write ((dest.getD ⟨true, env.cwd⟩).join f.name)
                  (runChunks L resp.chunks 0).1) with
            | error m => intro h; simp [hs]
            | ok fs2 =>
              simp only [hs]
              intro h
              exact absurd h (by simp)

theorem download_first_error_surfaced (digest : List UInt8 → List UInt8) (mv : ModelVersion)
    (fileId : Nat) (dest : Option RPath) (env : DownloadEnv) (e : NetErr)
    (f : ModelVersionFile) (hf : mv.files.find? (fun x => x.id = fileId) = some f)
    (hn : env.net 0 = Except.error e) :
    (download_single_model_file digest mv fileId dest env).result
      = Except.error (DlError.net e) := by
  unfold download_single_model_file
  rw [hf]
  dsimp only
  rw [hn]

/-! ## Helper lemmas: the per-file orchestration step -/

theorem process_invoked_iff_probe (digest : List UInt8 → List UInt8) (mv : ModelVersion)
    (fileId : Nat) (dest : Option RPath) (diskHas dec : RPath → Bool) (env : DownloadEnv) :
    (process_version_file digest mv fileId dest diskHas dec env).invokedCollaborator = true
      ↔ ∃ fp, cache_skip_probe mv.files fileId env.db diskHas = some fp := by
  unfold process_version_file
  cases hp : cache_skip_probe mv.files fileId env.db diskHas with
  | none => simp
  | some fp =>
    cases hd : dec fp <;> simp [hd]

theorem cache_skip_probe_some_iff (files : List ModelVersionFile) (fileId : Nat)
    (db : CacheDb) (diskHas : RPath → Bool) :
    (∃ fp, cache_skip_probe files fileId db diskHas = some fp)
      ↔ ∃ h locs, version_file_hash files fileId = some h ∧
          retreive_civitai_model_locations_by_blake3 h db = some locs ∧
          ∃ loc ∈ locs, diskHas loc = true := by
  unfold cache_skip_probe
  cases hh : version_file_hash files fileId with
  | none => simp
  | some h =>
    cases hr : retreive_civitai_model_locations_by_blake3 h db with
    | none =>
      constructor
      · rintro ⟨fp, hfp⟩
        dsimp only at hfp
        rw [hr] at hfp
        simp at hfp
      · rintro ⟨h2, locs2, hh2, hr2, _⟩
        obtain rfl : h2 = h := (Option.some.inj hh2).symm
        rw [hr] at hr2
        simp at hr2
    | some locs =>
      constructor
      · rintro ⟨fp, hfp⟩
        refine ⟨h, locs, rfl, hr, ?_⟩
        simp only [hr] at hfp
        have hsome : (List.find? diskHas locs).isSome = true := by
          rw [hfp]
          rfl
        rcases List.find?_isSome.mp hsome with ⟨x, hx, hpx⟩
        exact ⟨x, hx, hpx⟩
      · rintro ⟨h2, locs2, hh2, hr2, x, hx, hpx⟩
        obtain rfl : h2 = h := (Option.some.inj hh2).symm
        rw [hr] at hr2
        obtain rfl : locs2 = locs := (Option.some.inj hr2).symm
        obtain ⟨fp, hfp⟩ :=
          Option.isSome_iff_exists.mp (List.find?_isSome.mpr ⟨x, hx, hpx⟩)
        exact ⟨fp, by simp [hr, hfp]⟩

theorem process_decline_skips (digest : List UInt8 → List UInt8) (mv : ModelVersion)
    (fileId : Nat) (dest : Option RPath) (diskHas dec : RPath → Bool) (env : DownloadEnv)
    (fp : RPath) (hp : cache_skip_probe mv.files fileId env.db diskHas = some fp)
    (hd : dec fp = false) :
    (process_version_file digest mv fileId dest diskHas dec env).skipped = true ∧
    (process_version_file digest mv fileId dest diskHas dec env).outcome = none := by
  unfold process_version_file
  rw [hp]
  simp [hd]

theorem process_all_missing_downloads (digest : List UInt8 → List UInt8) (mv : ModelVersion)
    (fileId : Nat) (dest : Option RPath) (diskHas dec : RPath → Bool) (env : DownloadEnv)
    (h : String) (locs : List RPath) (hh : version_file_hash mv.files fileId = some h)
    (hr : retreive_civitai_model_locations_by_blake3 h env.db = some locs)
    (hmiss : ∀ loc ∈ locs, diskHas loc = false) :
    (process_version_file digest mv fileId dest diskHas dec env).invokedCollaborator = false ∧
    (process_version_file digest mv fileId dest diskHas dec env).skipped = false ∧
    (process_version_file digest mv fileId dest diskHas dec env).outcome
      = some (download_single_model_file digest mv fileId dest env) := by
  have hp : cache_skip_probe mv.files fileId env.db diskHas = none := by
    unfold cache_skip_probe
    rw [hh]
    simp only [hr]
    exact List.find?_eq_none.mpr (fun x hx => by simp [hmiss x hx])
  unfold process_version_file
  rw [hp]
  exact ⟨rfl, rfl, rfl⟩

theorem process_outcome_is_download (digest : List UInt8 → List UInt8) (mv : ModelVersion)
    (fileId : Nat) (dest : Option RPath) (diskHas dec : RPath → Bool) (env : DownloadEnv)
    (out : DownloadOutcome)
    (h : (process_version_file digest mv fileId dest diskHas dec env).outcome = some out) :
    out = download_single_model_file digest mv fileId dest env := by
  revert h
  unfold process_version_file
  cases hp : cache_skip_probe mv.files fileId env.db diskHas with
  | none =>
    intro h
    exact (Option.some.inj h).symm
  | some fp =>
    cases hd : dec fp with
    | false =>
      intro h
      simp [hd] at h
    | true =>
      intro h
      simp only [hd] at h
      simp at h
      exact h.symm

/-- Exact shape of the blake3-keyed record after one store, assuming the file
declares a blake3 hash and no sha256 hash, and the id key differs from the
blake3 key. -/
theorem store_blake3_eq (cwd : List String) (mv : ModelVersion) (f : ModelVersionFile)
    (p : RPath) (db : CacheDb) (h : String) (hb : f.hashes.blake3 = some h)
    (hs : f.hashes.sha256 = none)
    (hne : fileIdKeyOf mv.modelId mv.id f.id ≠ blake3KeyOf h) :
    store_civitai_model_file_location cwd mv f p db (blake3KeyOf h)
      = some (match db (blake3KeyOf h) with
        | some r => { r with locations := r.locations ++ [canonicalizeP cwd p] }
        | none =>
          ⟨mv.modelId, mv.id, [canonicalizeP cwd p]⟩) := by
  unfold store_civitai_model_file_location
  rw [hb, hs]
  dsimp only
  have hmid : pushLocation (canonicalizeP cwd p) ⟨mv.modelId, mv.id, [canonicalizeP cwd p]⟩
      (fileIdKeyOf mv.modelId mv.id f.id) db (blake3KeyOf h) = db (blake3KeyOf h) :=
    pushLocation_ne _ _ _ _ _ (Ne.symm hne)
  cases hdb : db (blake3KeyOf h) with
  | none =>
    rw [pushLocation_self_none _ _ _ _ (hmid.trans hdb)]
  | some r =>
    rw [pushLocation_self_some _ _ _ _ _ (hmid.trans hdb)]

/-! ## Helper lemmas: retry-policy arithmetic -/

theorem sum_of_backoff_waits_eq_sum (a : ℕ) (m : ℚ) (n : ℕ) (hm : 1 < m) :
    sum_of_backoff_waits a m n = ∑ k in Finset.range (n - 1), (a : ℚ) * m ^ k := by
  have h1 : (1 : ℚ) - m ≠ 0 := sub_ne_zero.mpr (ne_of_lt hm)
  have h2 : m - 1 ≠ 0 := sub_ne_zero.mpr hm.ne'
  unfold sum_of_backoff_waits
  rw [← Finset.mul_sum, geom_sum_eq hm.ne' (n - 1)]
  field_simp
  ring

theorem sum_of_backoff_waits_nonneg (a : ℕ) (m : ℚ) (n : ℕ) (hm : 1 < m) :
    0 ≤ sum_of_backoff_waits a m n := by
  rw [sum_of_backoff_waits_eq_sum a m n hm]
  apply Finset.sum_nonneg
  intro k _
  have hm0 : (0 : ℚ) ≤ m := le_of_lt (lt_trans zero_lt_one hm)
  exact mul_nonneg (Nat.cast_nonneg a) (pow_nonneg hm0 k)

theorem sum_of_backoff_waits_pos (a : ℕ) (m : ℚ) (n : ℕ) (hm : 1 < m) (ha : 0 < a)
    (hn : 2 ≤ n) : 0 < sum_of_backoff_waits a m n := by
  rw [sum_of_backoff_waits_eq_sum a m n hm]
  have hm0 : (0 : ℚ) ≤ m := le_of_lt (lt_trans zero_lt_one hm)
  apply Finset.sum_pos'
  · intro k _
    exact mul_nonneg (Nat.cast_nonneg a) (pow_nonneg hm0 k)
  · refine ⟨0, Finset.mem_range.mpr (by omega), ?_⟩
    have ha2 : (0 : ℚ) < (a : ℚ) := by exact_mod_cast ha
    simpa using ha2

/-! ## Concrete fixtures for witnesses and counterexamples -/

/-- A digest model returning the two bytes `0x22 0x22`: its hex rendering is
`2222`, deliberately different from the declared catalog hash `1111`. -/
def digestX : List UInt8 → List UInt8 := fun _ => [34, 34]

def fileX : ModelVersionFile :=
  ⟨5, "model.safetensors", some true, ⟨none, some "1111"⟩,
    "https://civitai.com/api/download/models/5"⟩

def mvX : ModelVersion := ⟨11, 7, "v1", [fileX]⟩

def destX : RPath := ⟨true, ["data"]⟩

def targetX : RPath := ⟨true, ["data", "model.safetensors"]⟩

def respX : HttpResponse := ⟨some 4, [.ok [1, 2], .ok [3, 4]]⟩

def dbEmpty : CacheDb := fun _ => none

def fsEmpty : FS := fun _ => none

def envX : DownloadEnv := ⟨fun _ => .ok respX, ["home"], fsEmpty, dbEmpty⟩

/-- A model version file with no declared hashes at all. -/
def fileY : ModelVersionFile := ⟨5, "plain.safetensors", some true, ⟨none, none⟩, "u"⟩

def mvY : ModelVersion := ⟨11, 7, "v1", [fileY]⟩

/-- Network oracle whose first attempt fails with a connection reset and whose
later attempts would succeed. -/
def envC3 : DownloadEnv :=
  ⟨fun k => if k = 0 then .error .connReset else .ok respX, ["home"], fsEmpty, dbEmpty⟩

/-- Environment whose only request fails with a timeout. -/
def envErr : DownloadEnv := ⟨fun _ => .error .timeout, ["home"], fsEmpty, dbEmpty⟩

def relP : RPath := ⟨false, ["m.bin"]⟩

/-! ## Claims -/

/-- C1: evaluating `download_single_model_file` at the failing input of
spec scenario D (declared blake3 `1111`, computed hash `2222`): the operation
completes successfully, the mismatch warning is emitted, the downloaded file
is kept — but the blake3 location record ends up under the **declared** hash
key `civitai:model:file:blake3:1111`, and no record exists under the computed
hash `2222`, because `store_civitai_model_file_location` derives its key from
`model_version_file.blake3_hash()` and has no parameter for the computed
checksum its caller passes. -/
theorem C1_record_keyed_by_declared_hash :
    (download_single_model_file digestX mvX 5 (some destX) envX).result
        = Except.ok "model.safetensors" ∧
    (download_single_model_file digestX mvX 5 (some destX) envX).logs = [checkFailedMsg] ∧
    (download_single_model_file digestX mvX 5 (some destX) envX).fs targetX
        = some [1, 2, 3, 4] ∧
    (download_single_model_file digestX mvX 5 (some destX) envX).db (blake3KeyOf "2222")
        = none ∧
    (download_single_model_file digestX mvX 5 (some destX) envX).db (blake3KeyOf "1111")
        = some ⟨7, 11, [targetX]⟩ :=
  ⟨rfl, rfl, rfl, rfl, rfl⟩

/-- C2: storing a file location (for a file whose catalog metadata declares
blake3 hash `h`) and then looking `h` up returns a record whose locations
contain the canonicalized path; under the all-absolute invariant, no location
is ever an unresolved relative path. -/
theorem C2_store_then_lookup_contains_canonical (cwd : List String) (mv : ModelVersion)
    (f : ModelVersionFile) (p : RPath) (db : CacheDb) (h : String)
    (hb : f.hashes.blake3 = some h) (hinv : absInv db) :
    ∃ locs, retreive_civitai_model_locations_by_blake3 h
        (store_civitai_model_file_location cwd mv f p db) = some locs ∧
      canonicalizeP cwd p ∈ locs ∧ ∀ q ∈ locs, q.absolute = true := by
  obtain ⟨r, hr, hmem⟩ := store_blake3_mem cwd mv f p db h hb
  refine ⟨r.locations, ?_, hmem, ?_⟩
  · unfold retreive_civitai_model_locations_by_blake3
    rw [hr]
    rfl
  · intro q hq
    exact store_absInv cwd mv f p db hinv _ _ hr q hq

theorem C2_witness :
    ∃ locs, retreive_civitai_model_locations_by_blake3 "1111"
        (store_civitai_model_file_location ["home"] mvX fileX relP dbEmpty) = some locs ∧
      canonicalizeP ["home"] relP ∈ locs ∧ ∀ q ∈ locs, q.absolute = true :=
  C2_store_then_lookup_contains_canonical ["home"] mvX fileX relP dbEmpty "1111" rfl
    (fun k r hk => by simp [dbEmpty] at hk)

/-- C5: the chunked streaming hash (512 KiB read chunks, repeated `update`
calls) is byte-identical to a single `update` over the whole buffer, and every
character of the rendered result is an upper-case hexadecimal digit.
Determinism is immediate: `blake3HashBytes` is a pure function of the byte
content. -/
theorem C5_chunked_equals_whole (digest : List UInt8 → List UInt8) (bs : List UInt8) :
    blake3HashBytes digest bs
      = toUpperStr (toHexLC (hasherFinalize digest (hasherUpdate hasherNew bs))) ∧
    ∀ c ∈ (blake3HashBytes digest bs).data, c ∈ UPPER_HEX_CHARS :=
  ⟨blake3HashBytes_eq_single digest bs, blake3HashBytes_upper_hex digest bs⟩

theorem C5_witness :
    blake3HashBytes digestX [1, 2, 3]
      = toUpperStr (toHexLC (hasherFinalize digestX (hasherUpdate hasherNew [1, 2, 3]))) ∧
    '2' ∈ UPPER_HEX_CHARS :=
  ⟨(C5_chunked_equals_whole digestX [1, 2, 3]).1,
    (C5_chunked_equals_whole digestX [1, 2, 3]).2 '2' (by decide)⟩

theorem C8_witness :
    (download_single_model_file digestX mvX 5 (some destX) envErr).db = envErr.db :=
  C8_failed_download_leaves_cache_unchanged digestX mvX 5 (some destX) envErr
    (.net .timeout) rfl

/-- C9: during one file transfer the progress positions reported after each
received chunk (`min (pos + len) L` in the streaming loop) form a
monotonically non-decreasing sequence, and none exceeds the server-declared
content length. -/
theorem C9_progress_monotone_bounded (L : Nat) (chunks : List (Except NetErr (List UInt8))) :
    List.Chain' (fun a b => a ≤ b) ((runChunks L chunks 0).2.1) ∧
    ∀ x ∈ (runChunks L chunks 0).2.1, x ≤ L := by
  obtain ⟨h1, h2⟩ := runChunks_progress L chunks 0 (Nat.zero_le L)
  exact ⟨h1.tail, h2⟩

theorem C9_witness :
    List.Chain' (fun a b => a ≤ b)
      ((runChunks 5 [Except.ok [1, 2], Except.ok [9, 9, 9], Except.ok [7]] 0).2.1) ∧
    2 ≤ 5 :=
  ⟨(C9_progress_monotone_bounded 5 [Except.ok [1, 2], Except.ok [9, 9, 9], Except.ok [7]]).1,
    (C9_progress_monotone_bounded 5 [Except.ok [1, 2], Except.ok [9, 9, 9], Except.ok [7]]).2
      2 (by decide)⟩

/-- C3 counterexample: with no cache skip (no known hash), a transient
connection-reset failure on the first and only request attempt is surfaced to
the caller immediately — exactly one attempt is made even though the network
oracle would have succeeded on the next attempt, so the download is *not*
executed through a retry wrapper and the error is *not* withheld until a
retry budget is exhausted. -/
theorem C3_counterexample_no_retry :
    (process_version_file digestX mvY 5 none (fun _ => false) (fun _ => true)
        envC3).skipped = false ∧
    ((process_version_file digestX mvY 5 none (fun _ => false) (fun _ => true)
        envC3).outcome.map (fun o => o.result))
      = some (Except.error (DlError.net NetErr.connReset)) ∧
    ((process_version_file digestX mvY 5 none (fun _ => false) (fun _ => true)
        envC3).outcome.map (fun o => o.attempts)) = some 1 ∧
    envC3.net 1 = Except.ok respX :=
  ⟨rfl, rfl, rfl, rfl⟩

/-- C3 amended: a model-file download that is not skipped performs at most one
request attempt (there is no RetryPolicy wrapper around
`download_single_model_file`), and a failure of that single attempt —
transient or not — is surfaced to the caller immediately. -/
theorem C3_single_attempt_surfaced (digest : List UInt8 → List UInt8) (mv : ModelVersion)
    (fileId : Nat) (dest : Option RPath) (diskHas dec : RPath → Bool) (env : DownloadEnv)
    (out : DownloadOutcome)
    (h : (process_version_file digest mv fileId dest diskHas dec env).outcome = some out) :
    out.attempts ≤ 1 ∧
    ∀ e f2, env.net 0 = Except.error e →
      mv.files.find? (fun x => x.id = fileId) = some f2 →
      out.result = Except.error (DlError.net e) := by
  have hout := process_outcome_is_download digest mv fileId dest diskHas dec env out h
  subst hout
  exact ⟨download_attempts_le_one digest mv fileId dest env,
    fun e f2 hn hf => download_first_error_surfaced digest mv fileId dest env e f2 hf hn⟩

theorem C3_witness :
    (download_single_model_file digestX mvY 5 none envC3).attempts ≤ 1 ∧
    ∀ e f2, envC3.net 0 = Except.error e →
      mvY.files.find? (fun x => x.id = 5) = some f2 →
      (download_single_model_file digestX mvY 5 none envC3).result
        = Except.error (DlError.net e) :=
  C3_single_attempt_surfaced digestX mvY 5 none (fun _ => false) (fun _ => true) envC3
    (download_single_model_file digestX mvY 5 none envC3) rfl

/-- C6: the store operation is not idempotent.  When no blake3-keyed record
exists, the store creates a single-location record; when one exists, the store
appends the canonicalized path to the existing list, preserving every prior
entry; storing the same pair twice therefore yields the path twice. -/
theorem C6_store_appends_not_idempotent (cwd : List String) (mv : ModelVersion)
    (f : ModelVersionFile) (p : RPath) (db : CacheDb) (h : String)
    (hb : f.hashes.blake3 = some h) (hs : f.hashes.sha256 = none)
    (hne : fileIdKeyOf mv.modelId mv.id f.id ≠ blake3KeyOf h) :
    (db (blake3KeyOf h) = none →
      store_civitai_model_file_location cwd mv f p db (blake3KeyOf h)
        = some ⟨mv.modelId, mv.id, [canonicalizeP cwd p]⟩) ∧
    (∀ r, db (blake3KeyOf h) = some r →
      store_civitai_model_file_location cwd mv f p db (blake3KeyOf h)
        = some ⟨r.modelId, r.versionId, r.locations ++ [canonicalizeP cwd p]⟩) ∧
    (db (blake3KeyOf h) = none →
      store_civitai_model_file_location cwd mv f p
          (store_civitai_model_file_location cwd mv f p db) (blake3KeyOf h)
        = some ⟨mv.modelId, mv.id, [canonicalizeP cwd p, canonicalizeP cwd p]⟩) := by
  have hchar := store_blake3_eq cwd mv f p db h hb hs hne
  refine ⟨?_, ?_, ?_⟩
  · intro h0
    rw [hchar, h0]
  · intro r hr
    rw [hchar, hr]
  · intro h0
    have hbase : store_civitai_model_file_location cwd mv f p db (blake3KeyOf h)
        = some ⟨mv.modelId, mv.id, [canonicalizeP cwd p]⟩ := by
      rw [hchar, h0]
    rw [store_blake3_eq cwd mv f p (store_civitai_model_file_location cwd mv f p db) h
      hb hs hne, hbase]
    rfl

theorem C6_witness :
    store_civitai_model_file_location ["home"] mvX fileX targetX
        (store_civitai_model_file_location ["home"] mvX fileX targetX dbEmpty)
        (blake3KeyOf "1111")
      = some ⟨7, 11, [canonicalizeP ["home"] targetX, canonicalizeP ["home"] targetX]⟩ :=
  (C6_store_appends_not_idempotent ["home"] mvX fileX targetX dbEmpty "1111" rfl rfl
      (by decide)).2.2 rfl

/-- C7: the interactive decision collaborator is invoked exactly when the
target file has a declared hash whose cache record holds at least one location
still present on disk; declining skips the file with no download; when every
cached location is missing from disk, the download proceeds without invoking
the collaborator. -/
theorem C7_collaborator_exactly_when_live_cached (digest : List UInt8 → List UInt8)
    (mv : ModelVersion) (fileId : Nat) (dest : Option RPath) (diskHas dec : RPath → Bool)
    (env : DownloadEnv) :
    ((process_version_file digest mv fileId dest diskHas dec env).invokedCollaborator = true ↔
      ∃ h locs, version_file_hash mv.files fileId = some h ∧
        retreive_civitai_model_locations_by_blake3 h env.db = some locs ∧
        ∃ loc ∈ locs, diskHas loc = true) ∧
    (∀ fp, cache_skip_probe mv.files fileId env.db diskHas = some fp → dec fp = false →
      (process_version_file digest mv fileId dest diskHas dec env).skipped = true ∧
      (process_version_file digest mv fileId dest diskHas dec env).outcome = none) ∧
    (∀ h locs, version_file_hash mv.files fileId = some h →
      retreive_civitai_model_locations_by_blake3 h env.db = some locs →
      (∀ loc ∈ locs, diskHas loc = false) →
      (process_version_file digest mv fileId dest diskHas dec env).invokedCollaborator
          = false ∧
      (process_version_file digest mv fileId dest diskHas dec env).skipped = false ∧
      (process_version_file digest mv fileId dest diskHas dec env).outcome
        = some (download_single_model_file digest mv fileId dest env)) := by
  refine ⟨?_, ?_, ?_⟩
  · exact (process_invoked_iff_probe digest mv fileId dest diskHas dec env).trans
      (cache_skip_probe_some_iff mv.files fileId env.db diskHas)
  · intro fp hp hd
    exact process_decline_skips digest mv fileId dest diskHas dec env fp hp hd
  · intro h locs hh hr hmiss
    exact process_all_missing_downloads digest mv fileId dest diskHas dec env h locs hh
      hr hmiss

/-- Cache database holding one blake3-keyed record whose sole location is the
previously downloaded file. -/
def dbC7 : CacheDb :=
  fun k => if k = blake3KeyOf "1111" then some ⟨7, 11, [targetX]⟩ else none

def envC7 : DownloadEnv := ⟨fun _ => .ok respX, ["home"], fsEmpty, dbC7⟩

theorem C7_witness :
    (process_version_file digestX mvX 5 (some destX) (fun _ => true) (fun _ => false)
        envC7).skipped = true ∧
    (process_version_file digestX mvX 5 (some destX) (fun _ => true) (fun _ => false)
        envC7).outcome = none :=
  (C7_collaborator_exactly_when_live_cached digestX mvX 5 (some destX) (fun _ => true)
      (fun _ => false) envC7).2.1 targetX rfl rfl

/-- C10: every successful model-file download writes a sidecar file named
`<stem>.blake3` into the same destination directory as the downloaded file,
whose entire content is the computed content hash of the downloaded bytes in
upper-case hexadecimal (`blake3HashBytes` renders in upper-case hex, and
`save_version_file_hash`'s re-upper-casing is the identity on it). -/
theorem C10_sidecar_hash_file (digest : List UInt8 → List UInt8) (mv : ModelVersion)
    (fileId : Nat) (dest : Option RPath) (env : DownloadEnv) (name : String)
    (h : (download_single_model_file digest mv fileId dest env).result = Except.ok name) :
    ∃ f resp L,
      mv.files.find? (fun x => x.id = fileId) = some f ∧ name = f.name ∧
      env.net 0 = Except.ok resp ∧ resp.contentLength = some L ∧
      (download_single_model_file digest mv fileId dest env).fs
          ((dest.getD ⟨true, env.cwd⟩).join (fileStem f.name ++ ".blake3"))
        = some (strBytes (blake3HashBytes digest (runChunks L resp.chunks 0).1)) := by
  revert h
  unfold download_single_model_file
  cases hf : mv.files.find? (fun f => f.id = fileId) with
  | none =>
    intro h
    exact absurd h (by simp)
  | some f =>
    simp only [hf]
    cases hn : env.net 0 with
    | error e =>
      intro h
      exact absurd h (by simp)
    | ok resp =>
      simp only [hn]
      cases hL : resp.contentLength with
      | none =>
        intro h
        exact absurd h (by simp)
      | some L =>
        simp only [hL]
        cases he : (runChunks L resp.chunks 0).2.2 with
        | some e =>
          intro h
          exact absurd h (by simp)
        | none =>
          simp only [he]
          have hb : blake3_hash digest
              (FS.write env.fs ((dest.getD ⟨true, env.cwd⟩).join f.name)
                (runChunks L resp.chunks 0).1)
              ((dest.getD ⟨true, env.cwd⟩).join f.name)
              = Except.ok (blake3HashBytes digest (runChunks L resp.chunks 0).1) := by
            unfold blake3_hash
            rw [FS.write_self]
          simp only [hb]
          rw [save_version_file_hash_join]
          dsimp only
          intro h
          simp only [Except.ok.injEq] at h
          refine ⟨f, resp, L, rfl, h.symm, rfl, hL, ?_⟩
          rw [toUpperStr_blake3HashBytes]
          exact FS.write_self _ _ _

theorem C10_witness :
    ∃ f resp L,
      mvX.files.find? (fun x => x.id = 5) = some f ∧ "model.safetensors" = f.name ∧
      envX.net 0 = Except.ok resp ∧ resp.contentLength = some L ∧
      (download_single_model_file digestX mvX 5 (some destX) envX).fs
          ((some destX |>.getD ⟨true, envX.cwd⟩).join (fileStem f.name ++ ".blake3"))
        = some (strBytes (blake3HashBytes digestX (runChunks L resp.chunks 0).1)) :=
  C10_sidecar_hash_file digestX mvX 5 (some destX) envX "model.safetensors" rfl

/-- C4 counterexample: at `(initial_interval, multiplier, max_retry, timeout)
= (1, 3/2, 3, 300)` the computed bound is `ceil(902.5) = 903`, which differs
from the claimed exact sum `902.5`; and at `(1, 2, 1, 300)` the bound is
exactly `300 = max_retry * timeout`, so it is not strictly greater. -/
theorem C4_counterexample_bound :
    ((max_elapsed_time 1 (3 / 2) 3 300 : ℚ)
        ≠ sum_of_backoff_waits 1 (3 / 2) 3 + (300 : ℚ) * (3 : ℚ)) ∧
    ¬ ((300 * 1 : ℕ) < max_elapsed_time 1 2 1 300) := by
  have hsum : sum_of_backoff_waits 1 (3 / 2) 3 = 5 / 2 := by
    unfold sum_of_backoff_waits
    norm_num
  have hsum2 : sum_of_backoff_waits 1 2 1 = 0 := by
    unfold sum_of_backoff_waits
    norm_num
  have harg : sum_of_backoff_waits 1 (3 / 2) 3 + ((300 : ℕ) : ℚ) * ((3 : ℕ) : ℚ)
      = 1805 / 2 := by
    rw [hsum]
    push_cast
    norm_num
  have harg2 : sum_of_backoff_waits 1 2 1 + ((300 : ℕ) : ℚ) * ((1 : ℕ) : ℚ) = 300 := by
    rw [hsum2]
    push_cast
    norm_num
  have hceil : Int.ceil ((1805 : ℚ) / 2) = 903 := by
    rw [Int.ceil_eq_iff]
    norm_num
  have hceil2 : Int.ceil ((300 : ℚ)) = 300 := by
    rw [Int.ceil_eq_iff]
    norm_num
  have hmax : max_elapsed_time 1 (3 / 2) 3 300 = 903 := by
    unfold max_elapsed_time
    rw [harg, hceil]
    rfl
  have hmax2 : max_elapsed_time 1 2 1 300 = 300 := by
    unfold max_elapsed_time
    rw [harg2, hceil2]
    rfl
  constructor
  · rw [hmax, hsum]
    norm_num
  · rw [hmax2]
    norm_num

/-- C4 amended: the maximum elapsed time is a pure function of
`(initial_interval, multiplier, max_retry, per_attempt_timeout)`.  For a
multiplier above 1 its wait term equals the geometric sum of the first
`max_retry - 1` backoff intervals; the bound equals the integer ceiling of
that sum plus `max_retry * per_attempt_timeout` (not that exact value, which
may be fractional); it is always at least `max_retry * per_attempt_timeout`,
and strictly greater whenever `initial_interval > 0` and `max_retry ≥ 2`. -/
theorem C4_max_elapsed_amended (a : ℕ) (m : ℚ) (n t : ℕ) (hm : 1 < m) :
    sum_of_backoff_waits a m n = ∑ k in Finset.range (n - 1), (a : ℚ) * m ^ k ∧
    (max_elapsed_time a m n t : ℤ)
      = Int.ceil (sum_of_backoff_waits a m n + (t : ℚ) * (n : ℚ)) ∧
    t * n ≤ max_elapsed_time a m n t ∧
    (0 < a → 2 ≤ n → t * n < max_elapsed_time a m n t) := by
  have hS0 := sum_of_backoff_waits_nonneg a m n hm
  have hx0 : (0 : ℚ) ≤ sum_of_backoff_waits a m n + (t : ℚ) * (n : ℚ) :=
    add_nonneg hS0 (mul_nonneg (Nat.cast_nonneg t) (Nat.cast_nonneg n))
  have hc0 : 0 ≤ Int.ceil (sum_of_backoff_waits a m n + (t : ℚ) * (n : ℚ)) :=
    Int.ceil_nonneg hx0
  refine ⟨sum_of_backoff_waits_eq_sum a m n hm, ?_, ?_, ?_⟩
  · unfold max_elapsed_time
    exact Int.toNat_of_nonneg hc0
  · unfold max_elapsed_time
    rw [Int.le_toNat hc0]
    calc ((t * n : ℕ) : ℤ) = Int.ceil (((t * n : ℕ) : ℚ)) := (Int.ceil_natCast _).symm
      _ ≤ _ := Int.ceil_le_ceil (by push_cast; linarith)
  · intro ha hn
    have hSpos := sum_of_backoff_waits_pos a m n hm ha hn
    unfold max_elapsed_time
    rw [Int.lt_toNat, Int.lt_ceil]
    push_cast
    linarith

theorem C4_witness :
    300 * 3 < max_elapsed_time 2 (3 / 2) 3 300 :=
  (C4_max_elapsed_amended 2 (3 / 2) 3 300 (by norm_num)).2.2.2 (by norm_num) (by norm_num)

end IMD
